import Mathlib

/-!
Shallow embedding of the transform-and-persist core of the gold/silver ETL
pipeline (src/app/transform.py and src/app/database.py), together with proofs
of the specified properties.

Numeric values are modelled as rationals (ℚ); Python's dynamic values as the
inductive `PyVal`; the SQLite table as a list of rows; logging as explicit
lists of log events returned by each function.
-/

namespace ETL

/-- Byte-wise lexicographic comparison of character lists (all characters in
play are ASCII, so code-point order coincides with byte order).  This models
both SQLite's BINARY collation used by `ORDER BY date DESC` on a TEXT column
and, applied to normalized 19-character datetime strings, Python's comparison
of naive `datetime` values. -/
def memLe : List Char → List Char → Bool
  | [], _ => true
  | _ :: _, [] => false
  | a :: as, b :: bs => if a < b then true else if b < a then false else memLe as bs

/-- Decidable digit test used by the date-shape matcher. -/
def isDigitC (c : Char) : Bool := decide ('0' ≤ c) && decide (c ≤ '9')

/-- Character-list shape matcher: in the pattern, 'D' stands for one decimal
digit and every other character stands for itself. -/
def matchShape : List Char → List Char → Bool
  | [], [] => true
  | p :: ps, c :: cs => (if p = 'D' then isDigitC c else decide (c = p)) && matchShape ps cs
  | _, _ => false

/-- Shape of the date part YYYY-MM-DD. -/
def dateShape : List Char := ['D', 'D', 'D', 'D', '-', 'D', 'D', '-', 'D', 'D']

/-- Shape of the time part THH:MM:SS. -/
def timeShape : List Char := ['T', 'D', 'D', ':', 'D', 'D', ':', 'D', 'D']

/-- Midnight time suffix appended when normalizing a date-only string. -/
def zeroTime : List Char := ['T', '0', '0', ':', '0', '0', ':', '0', '0']

/-- Models Python's `datetime.fromisoformat` as used by the pipeline,
restricted to the two naive fixed-width forms `YYYY-MM-DD` and
`YYYY-MM-DDTHH:MM:SS` (component range checks and the fractional-second and
timezone-offset forms are outside the data this pipeline handles).  The result
is the normalized 19-character form, on which `memLe` is exactly comparison of
the parsed naive datetimes. -/
def fromisoformat (s : String) : Option (List Char) :=
  if matchShape dateShape s.data then some (s.data ++ zeroTime)
  else if matchShape (dateShape ++ timeShape) s.data then some s.data
  else none

theorem memLe_refl (l : List Char) : memLe l l = true := by
  induction l with
  | nil => rfl
  | cons a as ih => simp [memLe, ih]

theorem memLe_total (a b : List Char) : memLe a b = true ∨ memLe b a = true := by
  induction a generalizing b with
  | nil => exact Or.inl rfl
  | cons x xs ih =>
    cases b with
    | nil => exact Or.inr rfl
    | cons y ys =>
      rcases lt_trichotomy x y with h | h | h
      · exact Or.inl (by simp [memLe, h])
      · subst h
        rcases ih ys with h' | h'
        · exact Or.inl (by simp [memLe, h'])
        · exact Or.inr (by simp [memLe, h'])
      · exact Or.inr (by simp [memLe, h])

theorem memLe_trans {a b c : List Char} (hab : memLe a b = true)
    (hbc : memLe b c = true) : memLe a c = true := by
  induction a generalizing b c with
  | nil => rfl
  | cons x xs ih =>
    cases b with
    | nil => simp [memLe] at hab
    | cons y ys =>
      cases c with
      | nil => simp [memLe] at hbc
      | cons z zs =>
        simp only [memLe] at hab hbc ⊢
        rcases lt_trichotomy x y with hxy | hxy | hxy
        · rcases lt_trichotomy y z with hyz | hyz | hyz
          · simp [lt_trans hxy hyz]
          · subst hyz; simp [hxy]
          · simp [hyz, not_lt_of_lt hyz] at hbc
        · subst hxy
          rcases lt_trichotomy x z with hyz | hyz | hyz
          · simp [hyz]
          · subst hyz
            simp [lt_irrefl] at hab hbc ⊢
            exact ih hab hbc
          · simp [hyz, not_lt_of_lt hyz] at hbc
        · simp [hxy, not_lt_of_lt hxy] at hab

theorem matchShape_length {p l : List Char} (h : matchShape p l = true) :
    l.length = p.length := by
  induction p generalizing l with
  | nil => cases l with
    | nil => rfl
    | cons c cs => simp [matchShape] at h
  | cons q qs ih =>
    cases l with
    | nil => simp [matchShape] at h
    | cons c cs =>
      simp only [matchShape, Bool.and_eq_true] at h
      simp [ih h.2]

theorem matchShape_append {p q l : List Char} (h : matchShape (p ++ q) l = true) :
    ∃ l₁ l₂, l = l₁ ++ l₂ ∧ matchShape p l₁ = true ∧ matchShape q l₂ = true := by
  induction p generalizing l with
  | nil => exact ⟨[], l, rfl, rfl, h⟩
  | cons x xs ih =>
    cases l with
    | nil => simp [matchShape] at h
    | cons c cs =>
      simp only [List.cons_append, matchShape, Bool.and_eq_true] at h
      obtain ⟨l₁, l₂, rfl, h₁, h₂⟩ := ih h.2
      exact ⟨c :: l₁, l₂, rfl, by simp [matchShape, h.1, h₁], h₂⟩

/-- Appending to two lists of equal length: the comparison is decided by the
common-length prefixes unless they are equal. -/
theorem memLe_append {a b s t : List Char} (h : a.length = b.length) :
    memLe (a ++ s) (b ++ t) = if a = b then memLe s t else memLe a b := by
  induction a generalizing b with
  | nil =>
    cases b with
    | nil => simp
    | cons y ys => simp at h
  | cons x xs ih =>
    cases b with
    | nil => simp at h
    | cons y ys =>
      simp only [List.length_cons, Nat.succ.injEq] at h
      simp only [List.cons_append, memLe]
      rcases lt_trichotomy x y with hxy | hxy | hxy
      · simp [hxy, ne_of_lt hxy, memLe]
      · subst hxy
        by_cases hxs : xs = ys
        · subst hxs; simp [ih h, memLe, lt_irrefl]
        · simp [ih h, hxs, memLe, lt_irrefl]
      · simp [hxy, not_lt_of_lt hxy, (ne_of_lt hxy).symm, memLe]

/-- Least character list matching a shape: every digit position is '0'. -/
def minOfShape (p : List Char) : List Char :=
  p.map (fun c => if c = 'D' then '0' else c)

theorem minOfShape_le {p t : List Char} (h : matchShape p t = true) :
    memLe (minOfShape p) t = true := by
  induction p generalizing t with
  | nil =>
    cases t with
    | nil => rfl
    | cons c cs => simp [matchShape] at h
  | cons q qs ih =>
    cases t with
    | nil => simp [matchShape] at h
    | cons c cs =>
      simp only [matchShape, Bool.and_eq_true] at h
      simp only [minOfShape, List.map_cons]
      by_cases hq : q = 'D'
      · have hd : isDigitC c = true := by
          have := h.1; simpa [hq] using this
        have h0 : '0' ≤ c := by
          simp only [isDigitC, Bool.and_eq_true, decide_eq_true_eq] at hd
          exact hd.1
        rcases lt_or_eq_of_le h0 with hlt | heq
        · simp [memLe, hq, hlt]
        · have ihc := ih h.2
          simp only [minOfShape] at ihc
          simp [memLe, hq, ← heq, ihc]
      · have hc : c = q := by
          have := h.1; simpa [hq] using this
        have ihc := ih h.2
        simp only [minOfShape] at ihc
        simp [memLe, hq, hc, ihc]

theorem zeroTime_eq_min : zeroTime = minOfShape timeShape := by decide

theorem dateShape_len_min : (minOfShape dateShape).length = 10 := by decide

/-- Monotonicity of normalization: if two strings both parse as ISO dates,
byte order of the raw strings implies byte order (= chronological order) of
the normalized 19-character forms.  This is the bridge between the SQL
`ORDER BY date DESC` (byte order on raw TEXT) and the Python
`datetime.fromisoformat` comparison made by the insert guard. -/
theorem fromisoformat_mono {s₁ s₂ : String} {n₁ n₂ : List Char}
    (h₁ : fromisoformat s₁ = some n₁) (h₂ : fromisoformat s₂ = some n₂)
    (h : memLe s₁.data s₂.data = true) : memLe n₁ n₂ = true := by
  unfold fromisoformat at h₁ h₂
  by_cases c₁ : matchShape dateShape s₁.data = true
  · simp only [c₁, if_true, Option.some.injEq] at h₁
    by_cases c₂ : matchShape dateShape s₂.data = true
    · -- both date-only: append the same suffix
      simp only [c₂, if_true, Option.some.injEq] at h₂
      subst h₁; subst h₂
      have hl : s₁.data.length = s₂.data.length := by
        rw [matchShape_length c₁, matchShape_length c₂]
      rw [memLe_append hl]
      by_cases he : s₁.data = s₂.data
      · simp [he, memLe_refl]
      · simp [he, h]
    · -- s₁ date-only, s₂ full
      by_cases c₂' : matchShape (dateShape ++ timeShape) s₂.data = true
      · simp only [c₂, c₂', if_true, Bool.false_eq_true, if_false,
          Option.some.injEq] at h₂
        subst h₁; subst h₂
        obtain ⟨d₂, t₂, hsplit, hd₂, ht₂⟩ := matchShape_append c₂'
        have hl : s₁.data.length = d₂.length := by
          rw [matchShape_length c₁, matchShape_length hd₂]
        rw [hsplit, memLe_append hl]
        by_cases he : s₁.data = d₂
        · simp only [he, if_true]
          rw [zeroTime_eq_min]
          exact minOfShape_le ht₂
        · simp only [he, if_false]
          have h' := h
          rw [hsplit, ← List.append_nil s₁.data, memLe_append hl] at h'
          simpa [he] using h'
      · simp [c₂, c₂'] at h₂
  · by_cases c₁' : matchShape (dateShape ++ timeShape) s₁.data = true
    · simp only [c₁, c₁', if_true, Bool.false_eq_true, if_false,
        Option.some.injEq] at h₁
      obtain ⟨d₁, t₁, hsplit₁, hd₁, ht₁⟩ := matchShape_append c₁'
      by_cases c₂ : matchShape dateShape s₂.data = true
      · -- s₁ full, s₂ date-only
        simp only [c₂, if_true, Option.some.injEq] at h₂
        subst h₁; subst h₂
        have hl : d₁.length = s₂.data.length := by
          rw [matchShape_length hd₁, matchShape_length c₂]
        have ht₁ne : t₁ ≠ [] := by
          intro hnil
          have := matchShape_length ht₁
          rw [hnil] at this
          simp [timeShape] at this
        have h' := h
        rw [hsplit₁, ← List.append_nil s₂.data, memLe_append hl] at h'
        by_cases he : d₁ = s₂.data
        · exfalso
          rcases t₁ with _ | ⟨x, xs⟩
          · exact ht₁ne rfl
          · simp [he, memLe] at h'
        · rw [hsplit₁, memLe_append hl]
          simpa [he] using h'
      · by_cases c₂' : matchShape (dateShape ++ timeShape) s₂.data = true
        · -- both full: normalization is the identity
          simp only [c₂, c₂', if_true, Bool.false_eq_true, if_false,
            Option.some.injEq] at h₂
          subst h₁; subst h₂; exact h
        · simp [c₂, c₂'] at h₂
    · simp [c₁, c₁'] at h₁

/-! Section: Python value model for src/app/transform.py -/

/-- Python runtime values reaching the transform layer: floats (modelled as
rationals), strings, and None. -/
inductive PyVal where
  | num (q : ℚ)
  | str (s : String)
  | none
deriving DecidableEq

/-- Snapshot dictionary from the fetch step. -/
abbrev PyDict := List (String × PyVal)

/-- Numeral value of a digit list (most significant first). -/
def digitsToNat (l : List Char) : Nat :=
  l.foldl (fun a c => a * 10 + (c.toNat - '0'.toNat)) 0

/-- Parses a nonempty run of digits. -/
def parseDigits (l : List Char) : Option Nat :=
  if l ≠ [] ∧ l.all isDigitC then some (digitsToNat l) else Option.none

/-- Unsigned decimal literal: digits with an optional fractional part. -/
def parseUnsignedDec (l : List Char) : Option ℚ :=
  match l.splitOn '.' with
  | [ip] => (parseDigits ip).map (fun n => (n : ℚ))
  | [ip, fp] =>
      match parseDigits ip, parseDigits fp with
      | some n, some f => some ((n : ℚ) + (f : ℚ) / (10 : ℚ) ^ fp.length)
      | _, _ => Option.none
  | _ => Option.none

/-- Models Python's `float(string)` on plain signed decimal literals (the
exponent, infinity and surrounding-whitespace forms are outside the data this
pipeline handles). -/
def pyParseFloat (s : String) : Option ℚ :=
  match s.data with
  | '-' :: rest => (parseUnsignedDec rest).map (fun q => -q)
  | '+' :: rest => parseUnsignedDec rest
  | l => parseUnsignedDec l

/-- Models Python's `float(x)` coercion: numbers pass through, numeric strings
parse, everything else raises TypeError/ValueError (modelled as `none`). -/
def pyFloat : PyVal → Option ℚ
  | .num q => some q
  | .str s => pyParseFloat s
  | .none => Option.none

/-- Models `datetime.fromisoformat(x)` on a dynamic value: a TypeError on
non-strings and a ValueError on malformed strings are both modelled as
`none` (the callers catch exactly these). -/
def pyFromisoformat : PyVal → Option (List Char)
  | .str s => fromisoformat s
  | _ => Option.none

/-- Log events emitted by the transform layer.  `extremeAlert` is the event
written to the dedicated extreme-movement channel (EXTREME_LOG); the others go
to the error channel at the indicated severities. -/
inductive TLog where
  | missingKeys
  | invalidTypes
  | zeroPrev
  | calcError
  | extremeAlert (timestamp : PyVal) (metal : String) (direction : String) (magnitude : ℚ)
  | transformOk
deriving DecidableEq

/-- Required keys checked by validate_data (src/app/transform.py:27). -/
def required_keys : List String := ["pax-gold", "silver-token-xagx", "timestamp"]

/-- src/app/transform.py:17-40.  Returns true iff all three required keys are
present, both prices coerce via float(), and the timestamp parses as ISO. -/
def validate_data (prices : PyDict) : Bool × List TLog :=
  if ¬ (required_keys.all (fun k => (prices.lookup k).isSome)) then
    (false, [TLog.missingKeys])
  else
    if (pyFloat ((prices.lookup "pax-gold").getD PyVal.none)).isSome
        && (pyFloat ((prices.lookup "silver-token-xagx").getD PyVal.none)).isSome
        && (pyFromisoformat ((prices.lookup "timestamp").getD PyVal.none)).isSome
      then (true, [])
      else (false, [TLog.invalidTypes])

/-- Python's `round(x, 2)` on the rational model (the tie-breaking convention
of float rounding is immaterial to every property stated here, since both the
code and the specification apply the same rounding). -/
def pyRound2 (x : ℚ) : ℚ := ((round (x * 100) : ℤ) : ℚ) / 100

/-- Python's `x == 0` test on a dynamic value. -/
def pyIsZero : PyVal → Bool
  | .num q => q == 0
  | _ => false

/-- src/app/transform.py:42-61.  Percentage change with the degrade-not-fail
policy: zero previous price yields 0.0 with a warning; a TypeError from
non-numeric operands is caught and yields 0.0 with an error log. -/
def calculate_change (previous_usd current_usd : PyVal) : ℚ × List TLog :=
  if pyIsZero previous_usd then
    (0, [TLog.zeroPrev])
  else
    match previous_usd, current_usd with
    | .num p, .num c => (pyRound2 ((c - p) / p * 100), [])
    | _, _ => (0, [TLog.calcError])

/-- src/app/transform.py:63-74.  Modelled from the spec for the threshold
value: EXTREME_THRESHOLD lives in config/config.py which is not part of the
sources, so the configured percentage is passed as an explicit parameter. -/
def flag_extreme_movement (threshold : ℚ) (metal : String) (timestamp : PyVal)
    (change : ℚ) : List TLog :=
  if |change| > threshold then
    [TLog.extremeAlert timestamp metal (if change > 0 then "+" else "-") |change|]
  else
    []

/-- One transformed asset record (the dicts built at
src/app/transform.py:102-114). -/
structure TRec where
  date : PyVal
  metal : String
  price_usd : PyVal
  price_change : ℚ
deriving DecidableEq

/-- Python truthiness of an optional previous price: None and 0.0 are falsy. -/
def pyTruthy : Option ℚ → Bool
  | Option.none => false
  | some q => !(q == 0)

/-- The per-asset change expression
`calculate_change(previous or 0, usd) if previous else 0.0`
(src/app/transform.py:95 and :99). -/
def asset_change (previous : Option ℚ) (current : PyVal) : ℚ × List TLog :=
  if pyTruthy previous then calculate_change (PyVal.num (previous.getD 0)) current
  else (0, [])

/-- src/app/transform.py:76-117.  Validates, computes both changes, flags
extremes, and assembles the two records; returns `none` exactly when
validation fails. -/
def transform_prices (threshold : ℚ) (prices : PyDict)
    (previous_gold previous_silver : Option ℚ) :
    Option (TRec × TRec) × List TLog :=
  if (validate_data prices).1 = false then
    (Option.none, (validate_data prices).2)
  else
    let timestamp := (prices.lookup "timestamp").getD PyVal.none
    let gold_usd := (prices.lookup "pax-gold").getD PyVal.none
    let gold_change := (asset_change previous_gold gold_usd).1
    let silver_usd := (prices.lookup "silver-token-xagx").getD PyVal.none
    let silver_change := (asset_change previous_silver silver_usd).1
    (some ({ date := timestamp, metal := "gold", price_usd := gold_usd,
             price_change := gold_change },
           { date := timestamp, metal := "silver", price_usd := silver_usd,
             price_change := silver_change }),
     (asset_change previous_gold gold_usd).2
       ++ flag_extreme_movement threshold "gold" timestamp gold_change
       ++ (asset_change previous_silver silver_usd).2
       ++ flag_extreme_movement threshold "silver" timestamp silver_change
       ++ [TLog.transformOk])

/-! Section: Database model for src/app/database.py -/

/-- One row of the PreciousMetals table (create_connection,
src/app/database.py:23-31). -/
structure Row where
  date : String
  metal : String
  price_usd : ℚ
  price_change : ℚ
deriving DecidableEq

/-- Log events emitted by the database layer. -/
inductive DbLog where
  | invalidInput (msg : String)
  | notNewer
  | invalidDate
  | inserted
  | dbError
  | unexpectedError
deriving DecidableEq

/-- Severity of each database log event: notNewer and inserted are info-level,
the rest are error-level. -/
def DbLog.isErrorLevel : DbLog → Bool
  | .invalidInput _ => true
  | .notNewer => false
  | .invalidDate => true
  | .inserted => false
  | .dbError => true
  | .unexpectedError => true

/-- Python's sqlite3 module has no attribute `sql_escape_string`; the lookup
in the f-string at src/app/database.py:83 therefore raises AttributeError.
The absent attribute is modelled as `none`. -/
def sqlite3_sql_escape_string : Option (String → String) := Option.none

/-- Outcome of the invalid-input branch at src/app/database.py:82-84: its
logging line evaluates `sqlite3.sql_escape_string(str(date))`, which raises
AttributeError before anything is logged, so the blanket handler at :109-111
logs an unexpected error and returns False. -/
def invalidInputLog (date : String) : DbLog :=
  match sqlite3_sql_escape_string with
  | some esc => DbLog.invalidInput (esc date)
  | Option.none => DbLog.unexpectedError

/-- Rows of the table holding the given metal, in insertion order. -/
def metalRows (db : List Row) (metal : String) : List Row :=
  db.filter (fun r => r.metal == metal)

/-- Row with the byte-order-maximal date among the given rows (SQLite's
`ORDER BY date DESC LIMIT 1` on a TEXT column under the default BINARY
collation). -/
def maxDateRow : List Row → Option Row
  | [] => Option.none
  | r :: rs =>
      match maxDateRow rs with
      | Option.none => some r
      | some m => if memLe r.date.data m.date.data then some m else some r

/-- src/app/database.py:39-63: latest (price_usd, date) for a metal, or none
when the metal has no rows. -/
def get_latest_price (db : List Row) (metal : String) : Option (ℚ × String) :=
  (maxDateRow (metalRows db metal)).map (fun r => (r.price_usd, r.date))

/-- The INSERT at src/app/database.py:98-103 under the UNIQUE(date, metal)
constraint declared by create_connection: a duplicate key raises
sqlite3.IntegrityError, which the sqlite3.Error handler at :106-108 turns
into False with the table unchanged. -/
def sqlInsert (db : List Row) (date metal : String) (price_usd price_change : ℚ) :
    Bool × List Row × List DbLog :=
  if db.any (fun r => r.date == date && r.metal == metal) then
    (false, db, [DbLog.dbError])
  else
    (true,
     db ++ [{ date := date, metal := metal, price_usd := price_usd,
              price_change := price_change }],
     [DbLog.inserted])

/-- src/app/database.py:65-111.  The price_usd argument is an Option to model
the `price_usd is None` test; every Python exception raised inside the body is
caught by the handlers at :106-111, so the model is a total function. -/
def insert_price (db : List Row) (date metal : String) (price_usd : Option ℚ)
    (price_change : ℚ) : Bool × List Row × List DbLog :=
  match price_usd with
  | Option.none => (false, db, [invalidInputLog date])
  | some p =>
      if date = "" ∨ metal = "" then
        (false, db, [invalidInputLog date])
      else
        match get_latest_price db metal with
        | Option.none => sqlInsert db date metal p price_change
        | some (_, latest_date) =>
            match fromisoformat date with
            | Option.none => (false, db, [DbLog.invalidDate])
            | some d =>
                match fromisoformat latest_date with
                | Option.none => (false, db, [DbLog.invalidDate])
                | some l =>
                    if memLe d l then (false, db, [DbLog.notNewer])
                    else sqlInsert db date metal p price_change

/-- One insert request as issued by the run driver (src/app/main.py:50-63). -/
structure InsertOp where
  date : String
  metal : String
  price_usd : Option ℚ
  price_change : ℚ

/-- Table state after one insert request. -/
def step (db : List Row) (op : InsertOp) : List Row :=
  (insert_price db op.date op.metal op.price_usd op.price_change).2.1

/-- Table state after a sequence of insert requests. -/
def runInserts (db : List Row) (ops : List InsertOp) : List Row :=
  ops.foldl step db

/-- Dates stored for a metal, in insertion order. -/
def metalDates (db : List Row) (metal : String) : List String :=
  (metalRows db metal).map (fun r => r.date)

/-- Date string `a` is chronologically strictly before date string `b`:
both parse and the parsed value of `b` exceeds that of `a`. -/
def dateLtB (a b : String) : Bool :=
  match fromisoformat a, fromisoformat b with
  | some x, some y => !(memLe y x)
  | _, _ => false

/-! Section: Supporting lemmas about the store -/

theorem maxDateRow_eq_none {rows : List Row} :
    maxDateRow rows = Option.none ↔ rows = [] := by
  cases rows with
  | nil => simp [maxDateRow]
  | cons r rs =>
    simp only [maxDateRow]
    cases maxDateRow rs with
    | none => simp
    | some m =>
      by_cases h : memLe r.date.data m.date.data = true <;> simp [h]

theorem maxDateRow_mem : ∀ {rows : List Row} {m : Row},
    maxDateRow rows = some m → m ∈ rows := by
  intro rows
  induction rows with
  | nil => intro m h; simp [maxDateRow] at h
  | cons r rs ih =>
    intro m h
    simp only [maxDateRow] at h
    cases hrs : maxDateRow rs with
    | none =>
      rw [hrs] at h
      simp at h
      simp [h]
    | some m' =>
      rw [hrs] at h
      by_cases hle : memLe r.date.data m'.date.data = true
      · simp [hle] at h
        exact List.mem_cons_of_mem r (h ▸ ih hrs)
      · simp [hle] at h
        simp [h]

theorem maxDateRow_ub : ∀ {rows : List Row} {m : Row},
    maxDateRow rows = some m → ∀ r ∈ rows, memLe r.date.data m.date.data = true := by
  intro rows
  induction rows with
  | nil => intro m _; simp
  | cons r rs ih =>
    intro m h x hx
    simp only [maxDateRow] at h
    cases hrs : maxDateRow rs with
    | none =>
      rw [hrs] at h
      simp at h
      have hrs' : rs = [] := maxDateRow_eq_none.mp hrs
      subst hrs'
      simp at hx
      subst hx
      exact h ▸ memLe_refl _
    | some m' =>
      rw [hrs] at h
      rcases List.mem_cons.mp hx with hxr | hxrs
      · subst hxr
        by_cases hle : memLe x.date.data m'.date.data = true
        · simp [hle] at h
          exact h ▸ hle
        · simp [hle] at h
          exact h ▸ memLe_refl _
      · have hub := ih hrs x hxrs
        by_cases hle : memLe r.date.data m'.date.data = true
        · simp [hle] at h
          exact h ▸ hub
        · simp [hle] at h
          rcases memLe_total r.date.data m'.date.data with htot | htot
          · exact absurd htot hle
          · exact h ▸ memLe_trans hub htot

theorem get_latest_price_eq_none {db : List Row} {metal : String} :
    get_latest_price db metal = Option.none ↔ metalRows db metal = [] := by
  unfold get_latest_price
  rw [Option.map_eq_none']
  exact maxDateRow_eq_none

theorem get_latest_price_spec {db : List Row} {metal : String} {q : ℚ} {ld : String}
    (h : get_latest_price db metal = some (q, ld)) :
    (∃ m ∈ metalRows db metal, m.date = ld ∧ m.price_usd = q) ∧
      ∀ r ∈ metalRows db metal, memLe r.date.data ld.data = true := by
  unfold get_latest_price at h
  cases hm : maxDateRow (metalRows db metal) with
  | none => rw [hm] at h; simp at h
  | some m =>
    rw [hm] at h
    simp only [Option.map, Option.some.injEq, Prod.mk.injEq] at h
    refine ⟨⟨m, maxDateRow_mem hm, h.2, h.1⟩, ?_⟩
    intro r hr
    exact h.2 ▸ maxDateRow_ub hm r hr

theorem metalRows_append_single (db : List Row) (r : Row) (metal : String) :
    metalRows (db ++ [r]) metal =
      metalRows db metal ++ (if r.metal == metal then [r] else []) := by
  unfold metalRows
  rw [List.filter_append]
  by_cases h : r.metal == metal <;> simp [h]

theorem metalDates_append_single (db : List Row) (r : Row) (metal : String) :
    metalDates (db ++ [r]) metal =
      metalDates db metal ++ (if r.metal == metal then [r.date] else []) := by
  unfold metalDates
  rw [metalRows_append_single]
  by_cases h : r.metal == metal <;> simp [h]

theorem metalDates_append_mk (db : List Row) (d m : String) (pu pc : ℚ)
    (metal : String) :
    metalDates
        (db ++ [{ date := d, metal := m, price_usd := pu, price_change := pc }])
        metal
      = metalDates db metal ++ (if m == metal then [d] else []) := by
  rw [metalDates_append_single]

theorem metalDates_mem {db : List Row} {metal a : String}
    (h : a ∈ metalDates db metal) : ∃ r ∈ metalRows db metal, r.date = a := by
  unfold metalDates at h
  simpa using h

/-- Exhaustive outcome analysis of insert_price: either it rejects, returning
false with the table unchanged, or it accepts, appending exactly the new row;
acceptance implies non-empty fields, a present price, no stored (date, metal)
duplicate, and either no prior history for the metal or a parsed date strictly
beyond the parsed latest stored date. -/
theorem insert_price_spec (db : List Row) (date metal : String) (pu : Option ℚ)
    (pc : ℚ) :
    ((insert_price db date metal pu pc).1 = false ∧
      (insert_price db date metal pu pc).2.1 = db)
    ∨ (∃ p, pu = some p ∧
        insert_price db date metal pu pc =
          (true, db ++ [{ date := date, metal := metal, price_usd := p,
                          price_change := pc }], [DbLog.inserted]) ∧
        (∀ r ∈ db, ¬(r.date = date ∧ r.metal = metal)) ∧
        date ≠ "" ∧ metal ≠ "" ∧
        (metalRows db metal = [] ∨
          ∃ q ld x y, get_latest_price db metal = some (q, ld) ∧
            fromisoformat date = some x ∧ fromisoformat ld = some y ∧
            memLe x y = false)) := by
  cases pu with
  | none => exact Or.inl ⟨rfl, rfl⟩
  | some p =>
    simp only [insert_price]
    split
    · exact Or.inl ⟨rfl, rfl⟩
    · rename_i hdm
      push_neg at hdm
      split
      · rename_i xg hg
        by_cases hdup : db.any (fun r => r.date == date && r.metal == metal) = true
        · refine Or.inl ?_
          unfold sqlInsert
          rw [if_pos hdup]
          exact ⟨rfl, rfl⟩
        · refine Or.inr ⟨p, rfl, ?_, ?_, hdm.1, hdm.2,
            Or.inl (get_latest_price_eq_none.mp hg)⟩
          · unfold sqlInsert
            rw [if_neg hdup]
          · intro r hr hc
            exact hdup (List.any_eq_true.mpr ⟨r, hr, by simp [hc.1, hc.2]⟩)
      · rename_i xg q ld hg
        split
        · exact Or.inl ⟨rfl, rfl⟩
        · rename_i xd x hx
          split
          · exact Or.inl ⟨rfl, rfl⟩
          · rename_i xl y hy
            split
            · exact Or.inl ⟨rfl, rfl⟩
            · rename_i hle
              by_cases hdup : db.any (fun r => r.date == date && r.metal == metal) = true
              · refine Or.inl ?_
                unfold sqlInsert
                rw [if_pos hdup]
                exact ⟨rfl, rfl⟩
              · refine Or.inr ⟨p, rfl, ?_, ?_, hdm.1, hdm.2,
                  Or.inr ⟨q, ld, x, y, hg, hx, hy, by simpa using hle⟩⟩
                · unfold sqlInsert
                  rw [if_neg hdup]
                · intro r hr hc
                  exact hdup (List.any_eq_true.mpr ⟨r, hr, by simp [hc.1, hc.2]⟩)

/-- No two rows of the table share the (date, metal) key — the UNIQUE
constraint of the schema. -/
def UniqueDM (db : List Row) : Prop :=
  db.Pairwise (fun r s => ¬(r.date = s.date ∧ r.metal = s.metal))

theorem uniqueDM_step {db : List Row} {op : InsertOp} (h : UniqueDM db) :
    UniqueDM (step db op) := by
  unfold step
  rcases insert_price_spec db op.date op.metal op.price_usd op.price_change with
    ⟨_, hdb⟩ | ⟨p, _, heq, hfresh, _⟩
  · rw [hdb]; exact h
  · simp only [heq]
    refine List.pairwise_append.mpr ⟨h, List.pairwise_singleton _ _, ?_⟩
    intro a ha b hb
    simp only [List.mem_singleton] at hb
    subst hb
    intro hc
    exact hfresh a ha ⟨hc.1, hc.2⟩

theorem uniqueDM_run {ops : List InsertOp} : ∀ {db : List Row},
    UniqueDM db → UniqueDM (runInserts db ops) := by
  induction ops with
  | nil => intro db h; exact h
  | cons op ops ih => intro db h; exact ih (uniqueDM_step h)

/-- Dates that all parse and are chronologically strictly increasing in
insertion order. -/
def ParsedChain (ds : List String) : Prop :=
  (∀ a ∈ ds, (fromisoformat a).isSome) ∧ ds.Pairwise (fun a b => dateLtB a b = true)

/-- Store invariant maintained by insert_price: per metal, the stored dates
either form a parsed strictly increasing chain, or consist of a single record
(whose date may be malformed, since with no prior history the date is never
parsed). -/
def Inv (db : List Row) : Prop :=
  ∀ metal, ParsedChain (metalDates db metal) ∨ ∃ a, metalDates db metal = [a]

theorem inv_nil : Inv [] := by
  intro metal
  left
  constructor
  · intro a ha; simp [metalDates, metalRows] at ha
  · simp [metalDates, metalRows]

/-- Left argument of a strict date comparison necessarily parses. -/
theorem dateLtB_left_isSome {a b : String} (h : dateLtB a b = true) :
    (fromisoformat a).isSome := by
  unfold dateLtB at h
  cases hfa : fromisoformat a with
  | none =>
    rw [hfa] at h
    cases hfb : fromisoformat b with
    | none => rw [hfb] at h; simp at h
    | some _ => rw [hfb] at h; simp at h
  | some _ => simp

/-- Every date already stored for the metal is chronologically strictly before
a date the guard accepts. -/
theorem accepted_after_all {db : List Row} {metal : String} {q : ℚ}
    {ld date : String} {x y : List Char}
    (hInv : ParsedChain (metalDates db metal) ∨ ∃ a, metalDates db metal = [a])
    (hg : get_latest_price db metal = some (q, ld))
    (hx : fromisoformat date = some x) (hy : fromisoformat ld = some y)
    (hxy : memLe x y = false) :
    ∀ a ∈ metalDates db metal, dateLtB a date = true := by
  intro a ha
  obtain ⟨⟨m, hmmem, hmdate, _⟩, hub⟩ := get_latest_price_spec hg
  rcases hInv with ⟨hparse, _⟩ | ⟨b, hb⟩
  · obtain ⟨r, hr, hrdate⟩ := metalDates_mem ha
    have hale : memLe a.data ld.data = true := hrdate ▸ hub r hr
    obtain ⟨xa, hxa⟩ := Option.isSome_iff_exists.mp (hparse a ha)
    have hxay : memLe xa y = true := fromisoformat_mono hxa hy hale
    have hxxa : memLe x xa = false := by
      by_contra hc
      rw [Bool.not_eq_false] at hc
      exact absurd (memLe_trans hc hxay) (by simp [hxy])
    simp [dateLtB, hxa, hx, hxxa]
  · have hld : ld = b := by
      have hmem : m.date ∈ metalDates db metal := by
        unfold metalDates
        exact List.mem_map.mpr ⟨m, hmmem, rfl⟩
      rw [hmdate, hb] at hmem
      simpa using hmem
    have hab : a = b := by
      rw [hb] at ha; simpa using ha
    rw [hab, ← hld]
    simp [dateLtB, hy, hx, hxy]

theorem inv_step {db : List Row} {op : InsertOp} (h : Inv db) : Inv (step db op) := by
  unfold step
  rcases insert_price_spec db op.date op.metal op.price_usd op.price_change with
    ⟨_, hdb⟩ | ⟨p, _, heq, hfresh, hdate, hmetal, hcase⟩
  · rw [hdb]; exact h
  · simp only [heq]
    intro metal
    rw [metalDates_append_mk]
    by_cases hm : op.metal = metal
    · subst hm
      rw [if_pos (by simp)]
      rcases hcase with hempty | ⟨q, ld, x, y, hg, hx, hy, hxy⟩
      · right
        refine ⟨op.date, ?_⟩
        unfold metalDates
        rw [hempty]
        rfl
      · left
        have hall := accepted_after_all (h op.metal) hg hx hy hxy
        rcases h op.metal with ⟨hparse, hpair⟩ | ⟨a, ha⟩
        · constructor
          · intro b hb
            rcases List.mem_append.mp hb with hb | hb
            · exact hparse b hb
            · simp only [List.mem_singleton] at hb
              rw [hb]
              simp [hx]
          · refine List.pairwise_append.mpr ⟨hpair, List.pairwise_singleton _ _, ?_⟩
            intro b hb c hc
            simp only [List.mem_singleton] at hc
            rw [hc]
            exact hall b hb
        · constructor
          · intro b hb
            rw [ha] at hb
            rcases List.mem_append.mp hb with hb | hb
            · simp only [List.mem_singleton] at hb
              rw [hb]
              exact dateLtB_left_isSome (hall a (by rw [ha]; simp))
            · simp only [List.mem_singleton] at hb
              rw [hb]
              simp [hx]
          · rw [ha]
            refine List.pairwise_append.mpr ⟨List.pairwise_singleton _ _,
              List.pairwise_singleton _ _, ?_⟩
            intro b hb c hc
            simp only [List.mem_singleton] at hb hc
            rw [hb, hc]
            exact hall a (by rw [ha]; simp)
    · rw [if_neg (by simpa using hm)]
      simp only [List.append_nil]
      exact h metal

theorem inv_run {ops : List InsertOp} : ∀ {db : List Row},
    Inv db → Inv (runInserts db ops) := by
  induction ops with
  | nil => intro db h; exact h
  | cons op ops ih => intro db h; exact ih (inv_step h)

/-! Section: Branch lemmas for insert_price -/

theorem sqlInsert_fresh {db : List Row} {date metal : String} {p pc : ℚ}
    (h : ∀ r ∈ db, ¬(r.date = date ∧ r.metal = metal)) :
    sqlInsert db date metal p pc =
      (true, db ++ [{ date := date, metal := metal, price_usd := p,
                      price_change := pc }], [DbLog.inserted]) := by
  unfold sqlInsert
  rw [if_neg]
  intro hc
  obtain ⟨r, hr, hrp⟩ := List.any_eq_true.mp hc
  simp only [Bool.and_eq_true, beq_iff_eq] at hrp
  exact h r hr hrp

theorem sqlInsert_dup {db : List Row} {date metal : String} {p pc : ℚ}
    (h : ∃ r ∈ db, r.date = date ∧ r.metal = metal) :
    sqlInsert db date metal p pc = (false, db, [DbLog.dbError]) := by
  unfold sqlInsert
  rw [if_pos]
  obtain ⟨r, hr, h1, h2⟩ := h
  exact List.any_eq_true.mpr ⟨r, hr, by simp [h1, h2]⟩

theorem insert_price_invalid {db : List Row} {date metal : String}
    {pu : Option ℚ} {pc : ℚ} (h : date = "" ∨ metal = "" ∨ pu = Option.none) :
    insert_price db date metal pu pc = (false, db, [DbLog.unexpectedError]) := by
  cases pu with
  | none =>
    show (false, db, [invalidInputLog date]) = _
    rfl
  | some p =>
    have hdm : date = "" ∨ metal = "" := by
      rcases h with h | h | h
      · exact Or.inl h
      · exact Or.inr h
      · cases h
    simp only [insert_price]
    rw [if_pos hdm]
    rfl

theorem insert_price_no_history {db : List Row} {date metal : String} {p pc : ℚ}
    (hd : date ≠ "") (hm : metal ≠ "")
    (hg : get_latest_price db metal = Option.none) :
    insert_price db date metal (some p) pc = sqlInsert db date metal p pc := by
  simp only [insert_price, hg]
  rw [if_neg (by simp [hd, hm])]

theorem insert_price_malformed {db : List Row} {date metal : String} {p pc q : ℚ}
    {ld : String} (hd : date ≠ "") (hm : metal ≠ "")
    (hg : get_latest_price db metal = some (q, ld))
    (hx : fromisoformat date = Option.none) :
    insert_price db date metal (some p) pc = (false, db, [DbLog.invalidDate]) := by
  simp only [insert_price, hg, hx]
  rw [if_neg (by simp [hd, hm])]

theorem insert_price_not_newer {db : List Row} {date metal : String} {p pc q : ℚ}
    {ld : String} {x y : List Char} (hd : date ≠ "") (hm : metal ≠ "")
    (hg : get_latest_price db metal = some (q, ld))
    (hx : fromisoformat date = some x) (hy : fromisoformat ld = some y)
    (hle : memLe x y = true) :
    insert_price db date metal (some p) pc = (false, db, [DbLog.notNewer]) := by
  simp only [insert_price, hg, hx, hy]
  rw [if_neg (by simp [hd, hm]), if_pos hle]

theorem insert_price_newer {db : List Row} {date metal : String} {p pc q : ℚ}
    {ld : String} {x y : List Char} (hd : date ≠ "") (hm : metal ≠ "")
    (hg : get_latest_price db metal = some (q, ld))
    (hx : fromisoformat date = some x) (hy : fromisoformat ld = some y)
    (hle : memLe x y = false) :
    insert_price db date metal (some p) pc = sqlInsert db date metal p pc := by
  simp only [insert_price, hg, hx, hy]
  rw [if_neg (by simp [hd, hm]), if_neg (by simp [hle])]

/-- Acceptance of the freshness guard rules out a stored duplicate of the
(date, metal) key: a duplicate would be byte-order below the stored maximum,
hence chronologically at or below it. -/
theorem no_dup_of_newer {db : List Row} {date metal : String} {q : ℚ}
    {ld : String} {x y : List Char}
    (hg : get_latest_price db metal = some (q, ld))
    (hx : fromisoformat date = some x) (hy : fromisoformat ld = some y)
    (hle : memLe x y = false) :
    ∀ r ∈ db, ¬(r.date = date ∧ r.metal = metal) := by
  intro r hr hc
  obtain ⟨_, hub⟩ := get_latest_price_spec hg
  have hmem : r ∈ metalRows db metal := by
    unfold metalRows
    exact List.mem_filter.mpr ⟨hr, by simp [hc.2]⟩
  have hrle : memLe date.data ld.data = true := hc.1 ▸ hub r hmem
  have : memLe x y = true := fromisoformat_mono hx hy hrle
  rw [this] at hle
  cases hle

/-- All log lists insert_price can emit. -/
theorem insert_price_logs (db : List Row) (date metal : String) (pu : Option ℚ)
    (pc : ℚ) :
    (insert_price db date metal pu pc).2.2 = [DbLog.unexpectedError] ∨
    (insert_price db date metal pu pc).2.2 = [DbLog.invalidDate] ∨
    (insert_price db date metal pu pc).2.2 = [DbLog.notNewer] ∨
    (insert_price db date metal pu pc).2.2 = [DbLog.dbError] ∨
    (insert_price db date metal pu pc).2.2 = [DbLog.inserted] := by
  cases pu with
  | none => left; rfl
  | some p =>
    simp only [insert_price]
    split
    · left; rfl
    · split
      · unfold sqlInsert
        split
        · right; right; right; left; rfl
        · right; right; right; right; rfl
      · split
        · right; left; rfl
        · split
          · right; left; rfl
          · split
            · right; right; left; rfl
            · unfold sqlInsert
              split
              · right; right; right; left; rfl
              · right; right; right; right; rfl

/-- Under the store invariant, an accepted insert is chronologically strictly
after every record already stored for its metal. -/
theorem insert_accept_after {db : List Row} (hInv : Inv db) {date metal : String}
    {pu : Option ℚ} {pc : ℚ}
    (hacc : (insert_price db date metal pu pc).1 = true) :
    ∀ r ∈ db, r.metal = metal → dateLtB r.date date = true := by
  rcases insert_price_spec db date metal pu pc with ⟨hf, _⟩ |
    ⟨p, _, heq, _, _, _, hcase⟩
  · rw [hacc] at hf
    cases hf
  · intro r hr hrm
    rcases hcase with hempty | ⟨q, ld, x, y, hg, hx, hy, hxy⟩
    · exfalso
      have hmem : r ∈ metalRows db metal := by
        unfold metalRows
        exact List.mem_filter.mpr ⟨hr, by simp [hrm]⟩
      rw [hempty] at hmem
      cases hmem
    · refine accepted_after_all (hInv metal) hg hx hy hxy r.date ?_
      unfold metalDates
      exact List.mem_map.mpr ⟨r, List.mem_filter.mpr ⟨hr, by simp [hrm]⟩, rfl⟩

/-! Section: Claim theorems: store -/

/-- C1: per-asset strict date monotonicity.  Starting from the empty store,
after any sequence of insert requests the dates stored for each asset form a
chronologically strictly increasing chain in insertion order, and any insert
the resulting store accepts is dated chronologically strictly after every
record already stored for that asset (so the store never accepts a record
dated at or before the currently latest stored date). -/
theorem c1_monotonic_insert_guard (ops : List InsertOp) :
    (∀ metal, (metalDates (runInserts [] ops) metal).Pairwise
        (fun a b => dateLtB a b = true)) ∧
    (∀ date metal pu pc,
        (insert_price (runInserts [] ops) date metal pu pc).1 = true →
        ∀ r ∈ runInserts [] ops, r.metal = metal →
          dateLtB r.date date = true) := by
  have hinv : Inv (runInserts [] ops) := inv_run inv_nil
  constructor
  · intro metal
    rcases hinv metal with ⟨_, hpair⟩ | ⟨a, ha⟩
    · exact hpair
    · rw [ha]
      exact List.pairwise_singleton _ _
  · intro date metal pu pc hacc
    exact insert_accept_after hinv hacc

/-- Witness for C1 at a concrete run: one stored gold record, then a later
date accepted. -/
theorem c1_monotonic_insert_guard_witness :
    dateLtB "2025-01-01" "2025-01-02" = true :=
  (c1_monotonic_insert_guard [⟨"2025-01-01", "gold", some 1, 0⟩]).2
    "2025-01-02" "gold" (some 2) 0 (by decide)
    ⟨"2025-01-01", "gold", 1, 0⟩ (by decide) rfl

/-- C2: insert outcome.  For a well-formed record: with no prior history the
insert accepts and appends the row; with prior history whose latest date
parses, the insert rejects (false, store unchanged) when the record's date is
at or before the latest, and accepts (appending exactly the row) when it is
strictly later; in general it returns true iff the row was durably written. -/
theorem c2_insert_outcome (db : List Row) (date metal : String) (p pc : ℚ)
    (x : List Char) (hd : date ≠ "") (hm : metal ≠ "")
    (hx : fromisoformat date = some x) :
    (get_latest_price db metal = Option.none →
        insert_price db date metal (some p) pc =
          (true, db ++ [⟨date, metal, p, pc⟩], [DbLog.inserted])) ∧
    (∀ q ld y, get_latest_price db metal = some (q, ld) →
        fromisoformat ld = some y →
        (memLe x y = true →
            insert_price db date metal (some p) pc =
              (false, db, [DbLog.notNewer])) ∧
        (memLe x y = false →
            insert_price db date metal (some p) pc =
              (true, db ++ [⟨date, metal, p, pc⟩], [DbLog.inserted]))) ∧
    ((insert_price db date metal (some p) pc).1 = true ↔
        (insert_price db date metal (some p) pc).2.1 =
          db ++ [⟨date, metal, p, pc⟩]) := by
  refine ⟨?_, ?_, ?_⟩
  · intro hg
    rw [insert_price_no_history hd hm hg]
    refine sqlInsert_fresh ?_
    intro r hr hc
    have hmem : r ∈ metalRows db metal :=
      List.mem_filter.mpr ⟨hr, by simp [hc.2]⟩
    rw [get_latest_price_eq_none.mp hg] at hmem
    cases hmem
  · intro q ld y hg hy
    constructor
    · intro hle
      exact insert_price_not_newer hd hm hg hx hy hle
    · intro hle
      rw [insert_price_newer hd hm hg hx hy hle]
      exact sqlInsert_fresh (no_dup_of_newer hg hx hy hle)
  · rcases insert_price_spec db date metal (some p) pc with ⟨h1, h2⟩ |
      ⟨p', hp', heq, _⟩
    · constructor
      · intro hc
        rw [hc] at h1
        cases h1
      · intro hc
        rw [h2] at hc
        exfalso
        have hlen := congrArg List.length hc
        simp at hlen
    · obtain rfl : p = p' := Option.some.inj hp'
      rw [heq]
      simp

/-- Witness for C2: with one stored gold record a strictly later date is
accepted and appended. -/
theorem c2_insert_outcome_witness :
    insert_price [⟨"2025-01-01", "gold", 1, 0⟩] "2025-01-02" "gold" (some 2) 0 =
      (true, [⟨"2025-01-01", "gold", (1 : ℚ), 0⟩,
              ⟨"2025-01-02", "gold", 2, 0⟩], [DbLog.inserted]) := by
  have h := (c2_insert_outcome
      [⟨"2025-01-01", "gold", 1, 0⟩]
      "2025-01-02" "gold" 2 0 ("2025-01-02T00:00:00".data)
      (by decide) (by decide) (by decide)).2.1
      1 "2025-01-01" ("2025-01-01T00:00:00".data) (by decide) (by decide)
  exact h.2 (by decide)

/-- C4 as stated is false on the code: when the asset has no stored history
insert_price never parses the date (the guard at src/app/database.py:89-96 is
inside `if latest_date:`), so a malformed date is accepted and durably
written. -/
theorem c4_counterexample :
    fromisoformat "bad-date" = Option.none ∧
    insert_price [] "bad-date" "gold" (some 1) 0 =
      (true, [⟨"bad-date", "gold", 1, 0⟩], [DbLog.inserted]) := by
  exact ⟨by decide, rfl⟩

/-- C4 amended: an insert whose date fails to parse is rejected with an
error-level diagnostic whenever the asset already has stored history (false,
store unchanged); when the asset has no stored history the date is not parsed
at all, and such a record is accepted whenever its fields are valid and no
duplicate key exists. -/
theorem c4_malformed_date (db db₂ : List Row) (date metal : String)
    (p pc : ℚ) (q : ℚ) (ld : String) (hd : date ≠ "") (hm : metal ≠ "")
    (hx : fromisoformat date = Option.none) :
    (get_latest_price db metal = some (q, ld) →
        insert_price db date metal (some p) pc =
          (false, db, [DbLog.invalidDate]) ∧
        DbLog.invalidDate.isErrorLevel = true) ∧
    (get_latest_price db₂ metal = Option.none →
        (∀ r ∈ db₂, ¬(r.date = date ∧ r.metal = metal)) →
        insert_price db₂ date metal (some p) pc =
          (true, db₂ ++ [⟨date, metal, p, pc⟩], [DbLog.inserted])) := by
  constructor
  · intro hg
    exact ⟨insert_price_malformed hd hm hg hx, rfl⟩
  · intro hg hfresh
    rw [insert_price_no_history hd hm hg]
    exact sqlInsert_fresh hfresh

/-- Witness for the amended C4: a malformed date is rejected against existing
gold history. -/
theorem c4_malformed_date_witness :
    insert_price [⟨"2025-01-01", "gold", 1, 0⟩] "bad-date" "gold" (some 1) 0 =
      (false, [⟨"2025-01-01", "gold", (1 : ℚ), 0⟩], [DbLog.invalidDate]) :=
  ((c4_malformed_date
      [⟨"2025-01-01", "gold", 1, 0⟩] []
      "bad-date" "gold" 1 0 1 "2025-01-01"
      (by decide) (by decide) (by decide)).1 (by decide)).1

/-- C6: replaying any sequence of inserts twice preserves uniqueness of the
(date, metal) key, so at most one record per (date, asset) ever exists;
resubmitting an already stored (date, metal) returns false and leaves the
store unchanged; and the raw INSERT rejects a duplicate key even when the
monotonicity check is bypassed. -/
theorem c6_idempotent_unique (ops : List InsertOp) (db : List Row) :
    (UniqueDM db → UniqueDM (runInserts (runInserts db ops) ops)) ∧
    (∀ date metal pu pc, (∃ r ∈ db, r.date = date ∧ r.metal = metal) →
        (insert_price db date metal pu pc).1 = false ∧
        (insert_price db date metal pu pc).2.1 = db) ∧
    (∀ date metal p pc, (∃ r ∈ db, r.date = date ∧ r.metal = metal) →
        sqlInsert db date metal p pc = (false, db, [DbLog.dbError])) := by
  refine ⟨fun h => uniqueDM_run (uniqueDM_run h), ?_, ?_⟩
  · intro date metal pu pc hdup
    rcases insert_price_spec db date metal pu pc with ⟨h1, h2⟩ |
      ⟨p, _, _, hfresh, _⟩
    · exact ⟨h1, h2⟩
    · obtain ⟨r, hr, hc⟩ := hdup
      exact absurd hc (hfresh r hr)
  · intro date metal p pc hdup
    exact sqlInsert_dup hdup

/-- Witness for C6: resubmitting the stored (date, metal) pair returns false
and leaves the store unchanged, and replaying a run keeps uniqueness. -/
theorem c6_idempotent_unique_witness :
    ((insert_price [⟨"2025-01-01", "gold", 1, 0⟩] "2025-01-01" "gold" (some 1) 0).1 = false ∧
      (insert_price [⟨"2025-01-01", "gold", 1, 0⟩] "2025-01-01" "gold" (some 1) 0).2.1 =
        [⟨"2025-01-01", "gold", (1 : ℚ), 0⟩]) ∧
    UniqueDM (runInserts
      (runInserts [] [⟨"2025-01-01", "gold", some 1, 0⟩])
      [⟨"2025-01-01", "gold", some 1, 0⟩]) :=
  ⟨(c6_idempotent_unique [] [⟨"2025-01-01", "gold", 1, 0⟩]).2.1
     "2025-01-01" "gold" (some 1) 0
     ⟨⟨"2025-01-01", "gold", 1, 0⟩, by decide, rfl, rfl⟩,
   (c6_idempotent_unique [⟨"2025-01-01", "gold", some 1, 0⟩] []).1
     (List.Pairwise.nil)⟩

/-- C10: insert_price is total at its interface: an empty date, empty metal
name, or absent price makes the basic-validity branch fire, whose own logging
line raises AttributeError (sqlite3.sql_escape_string does not exist in the
sqlite3 module), caught by the blanket handler — the result is false with the
store unchanged and an unexpected-error log; the intended invalid-input
diagnostic is never emitted on any input; and every false return leaves the
store unchanged. -/
theorem c10_insert_total (db : List Row) (date metal : String)
    (pu : Option ℚ) (pc : ℚ) :
    ((date = "" ∨ metal = "" ∨ pu = Option.none) →
        insert_price db date metal pu pc =
          (false, db, [DbLog.unexpectedError])) ∧
    sqlite3_sql_escape_string = Option.none ∧
    (∀ msg, DbLog.invalidInput msg ∉ (insert_price db date metal pu pc).2.2) ∧
    ((insert_price db date metal pu pc).1 = false →
        (insert_price db date metal pu pc).2.1 = db) := by
  refine ⟨insert_price_invalid, rfl, ?_, ?_⟩
  · intro msg hmem
    rcases insert_price_logs db date metal pu pc with h | h | h | h | h <;>
      rw [h] at hmem <;> simp at hmem
  · intro hf
    rcases insert_price_spec db date metal pu pc with ⟨_, h2⟩ | ⟨p, _, heq, _⟩
    · exact h2
    · rw [heq] at hf
      simp at hf

/-- Witness for C10: the empty-date input maps to a false return with the
store unchanged and the unexpected-error log. -/
theorem c10_insert_total_witness :
    insert_price [] "" "gold" (some 1) 0 =
      (false, [], [DbLog.unexpectedError]) :=
  (c10_insert_total [] "" "gold" (some 1) 0).1 (Or.inl rfl)

/-! Section: Supporting lemmas for the transform layer -/

/-- Numeric test on a dynamic value. -/
def PyVal.isNum : PyVal → Bool
  | .num _ => true
  | _ => false

theorem validate_data_true_iff (prices : PyDict) :
    (validate_data prices).1 = true ↔
      (required_keys.all (fun k => (prices.lookup k).isSome) = true ∧
        (pyFloat ((prices.lookup "pax-gold").getD PyVal.none)).isSome = true ∧
        (pyFloat ((prices.lookup "silver-token-xagx").getD PyVal.none)).isSome
          = true ∧
        (pyFromisoformat ((prices.lookup "timestamp").getD PyVal.none)).isSome
          = true) := by
  unfold validate_data
  split
  · rename_i hk
    constructor
    · intro h; cases h
    · rintro ⟨h1, -⟩
      exact absurd h1 (by simpa using hk)
  · rename_i hk
    rw [not_not] at hk
    split
    · rename_i h3
      simp only [Bool.and_eq_true] at h3
      exact ⟨fun _ => ⟨hk, h3.1.1, h3.1.2, h3.2⟩, fun _ => rfl⟩
    · rename_i h3
      constructor
      · intro h; cases h
      · rintro ⟨-, h1, h2, h4⟩
        exact absurd (by simp [h1, h2, h4]) h3

theorem validate_lookup_some {prices : PyDict} {k : String}
    (hv : (validate_data prices).1 = true) (hk : k ∈ required_keys) :
    prices.lookup k = some ((prices.lookup k).getD PyVal.none) := by
  have hall := ((validate_data_true_iff prices).mp hv).1
  have hks := List.all_eq_true.mp hall k hk
  cases h : prices.lookup k with
  | none => rw [h] at hks; simp at hks
  | some v => simp

theorem transform_prices_invalid {threshold : ℚ} {prices : PyDict}
    {pg ps : Option ℚ} (hv : (validate_data prices).1 = false) :
    transform_prices threshold prices pg ps =
      (Option.none, (validate_data prices).2) := by
  unfold transform_prices
  rw [if_pos hv]

theorem transform_prices_valid {threshold : ℚ} {prices : PyDict}
    {pg ps : Option ℚ} (hv : (validate_data prices).1 = true) :
    transform_prices threshold prices pg ps =
      (some (⟨(prices.lookup "timestamp").getD PyVal.none, "gold",
              (prices.lookup "pax-gold").getD PyVal.none,
              (asset_change pg
                ((prices.lookup "pax-gold").getD PyVal.none)).1⟩,
             ⟨(prices.lookup "timestamp").getD PyVal.none, "silver",
              (prices.lookup "silver-token-xagx").getD PyVal.none,
              (asset_change ps
                ((prices.lookup "silver-token-xagx").getD PyVal.none)).1⟩),
       (asset_change pg ((prices.lookup "pax-gold").getD PyVal.none)).2
         ++ flag_extreme_movement threshold "gold"
              ((prices.lookup "timestamp").getD PyVal.none)
              (asset_change pg
                ((prices.lookup "pax-gold").getD PyVal.none)).1
         ++ (asset_change ps
              ((prices.lookup "silver-token-xagx").getD PyVal.none)).2
         ++ flag_extreme_movement threshold "silver"
              ((prices.lookup "timestamp").getD PyVal.none)
              (asset_change ps
                ((prices.lookup "silver-token-xagx").getD PyVal.none)).1
         ++ [TLog.transformOk]) := by
  unfold transform_prices
  rw [if_neg (by simp [hv])]

theorem asset_change_falsy {prev : Option ℚ} (cur : PyVal)
    (h : prev = Option.none ∨ prev = some 0) :
    asset_change prev cur = (0, []) := by
  unfold asset_change
  rcases h with h | h <;> subst h <;> simp [pyTruthy]

theorem calculate_change_nonzero_logs {q : ℚ} (hq : q ≠ 0) (w : PyVal) :
    (calculate_change (PyVal.num q) w).2 = [] ∨
      (calculate_change (PyVal.num q) w).2 = [TLog.calcError] := by
  unfold calculate_change
  rw [if_neg (by simp [pyIsZero, hq])]
  cases w <;> simp

theorem zeroPrev_not_in_asset_change (prev : Option ℚ) (cur : PyVal) :
    TLog.zeroPrev ∉ (asset_change prev cur).2 := by
  unfold asset_change
  cases prev with
  | none => simp [pyTruthy]
  | some q =>
    by_cases hq : q = 0
    · simp [pyTruthy, hq]
    · rw [if_pos (by simp [pyTruthy, hq])]
      simp only [Option.getD_some]
      rcases calculate_change_nonzero_logs hq cur with h | h <;> simp [h]

theorem zeroPrev_not_in_flag (th : ℚ) (metal : String) (ts : PyVal)
    (change : ℚ) : TLog.zeroPrev ∉ flag_extreme_movement th metal ts change := by
  unfold flag_extreme_movement
  split <;> simp

theorem zeroPrev_not_in_validate (prices : PyDict) :
    TLog.zeroPrev ∉ (validate_data prices).2 := by
  unfold validate_data
  split
  · simp
  · split <;> simp

/-! Section: Claim theorems: transform layer -/

/-- C3: calculate_change implements round(((current - previous) / previous)
* 100, 2) for numeric inputs with nonzero previous; previous = 0 yields 0.0
with the zero-division warning; a non-numeric operand on either side yields
0.0 (with an error log when the zero test did not already fire); it is a
total function; in particular change(1000, 1050) = 5.0 and
change(1000, 950) = -5.0. -/
theorem c3_calculate_change :
    (∀ p c : ℚ, p ≠ 0 →
        calculate_change (PyVal.num p) (PyVal.num c) =
          (pyRound2 ((c - p) / p * 100), [])) ∧
    (∀ v : PyVal, calculate_change (PyVal.num 0) v = (0, [TLog.zeroPrev])) ∧
    (∀ v w : PyVal, v.isNum = false →
        calculate_change v w = (0, [TLog.calcError])) ∧
    (∀ p : ℚ, ∀ w : PyVal, p ≠ 0 → w.isNum = false →
        calculate_change (PyVal.num p) w = (0, [TLog.calcError])) ∧
    calculate_change (PyVal.num 1000) (PyVal.num 1050) = (5, []) ∧
    calculate_change (PyVal.num 1000) (PyVal.num 950) = (-5, []) := by
  refine ⟨?_, ?_, ?_, ?_, ?_, ?_⟩
  · intro p c hp
    unfold calculate_change
    rw [if_neg (by simp [pyIsZero, hp])]
  · intro v
    unfold calculate_change
    rw [if_pos (by simp [pyIsZero])]
  · intro v w hv
    cases v with
    | num q => simp [PyVal.isNum] at hv
    | str s => cases w <;> simp [calculate_change, pyIsZero]
    | none => cases w <;> simp [calculate_change, pyIsZero]
  · intro p w hp hw
    unfold calculate_change
    rw [if_neg (by simp [pyIsZero, hp])]
    cases w with
    | num q => simp [PyVal.isNum] at hw
    | str s => rfl
    | none => rfl
  · unfold calculate_change
    rw [if_neg (by simp [pyIsZero])]
    norm_num [pyRound2, round_eq]
  · unfold calculate_change
    rw [if_neg (by simp [pyIsZero])]
    norm_num [pyRound2, round_eq]

/-- Witness for C3: nonzero-previous formula at (1000, 1050). -/
theorem c3_calculate_change_witness :
    (1000 : ℚ) ≠ 0 ∧
    calculate_change (PyVal.num 1000) (PyVal.num 1050) =
      (pyRound2 ((1050 - 1000) / 1000 * 100), []) :=
  ⟨by norm_num, c3_calculate_change.1 1000 1050 (by norm_num)⟩

/-- C9: flag_extreme_movement emits exactly one alert event — carrying the
timestamp, asset, sign and magnitude — iff the absolute change exceeds the
configured threshold, and emits nothing otherwise; it is a pure function of
its arguments. -/
theorem c9_flag_extreme (threshold : ℚ) (metal : String) (timestamp : PyVal)
    (change : ℚ) :
    (flag_extreme_movement threshold metal timestamp change ≠ [] ↔
        |change| > threshold) ∧
    (|change| > threshold →
        flag_extreme_movement threshold metal timestamp change =
          [TLog.extremeAlert timestamp metal
            (if change > 0 then "+" else "-") |change|]) ∧
    (¬ |change| > threshold →
        flag_extreme_movement threshold metal timestamp change = []) := by
  unfold flag_extreme_movement
  by_cases h : |change| > threshold
  · rw [if_pos h]
    exact ⟨by simp [h], fun _ => rfl, fun hc => absurd h hc⟩
  · rw [if_neg h]
    exact ⟨by simp [h], fun hc => absurd hc h, fun _ => rfl⟩

/-- Witness for C9: threshold 5 with change 6 emits the alert, with change -4
it does not. -/
theorem c9_flag_extreme_witness :
    flag_extreme_movement 5 "gold" (PyVal.str "2025-08-31T12:00:00") 6 =
      [TLog.extremeAlert (PyVal.str "2025-08-31T12:00:00") "gold"
        (if (6 : ℚ) > 0 then "+" else "-") |(6 : ℚ)|] ∧
    flag_extreme_movement 5 "silver" (PyVal.str "2025-08-31T12:00:00") (-4)
      = [] :=
  ⟨(c9_flag_extreme 5 "gold" (PyVal.str "2025-08-31T12:00:00") 6).2.1
     (by norm_num),
   (c9_flag_extreme 5 "silver" (PyVal.str "2025-08-31T12:00:00") (-4)).2.2
     (by norm_num)⟩

/-- C7: validate_data returns true iff the snapshot has all three required
keys, both price fields coerce via float(), and the timestamp parses as
ISO-8601; it is a total boolean function, so every violation yields false. -/
theorem c7_validate (prices : PyDict) :
    ((validate_data prices).1 = true ↔
      (required_keys.all (fun k => (prices.lookup k).isSome) = true ∧
        (pyFloat ((prices.lookup "pax-gold").getD PyVal.none)).isSome = true ∧
        (pyFloat ((prices.lookup "silver-token-xagx").getD PyVal.none)).isSome
          = true ∧
        (pyFromisoformat ((prices.lookup "timestamp").getD PyVal.none)).isSome
          = true)) ∧
    ((validate_data prices).1 = false ↔
      ¬ (required_keys.all (fun k => (prices.lookup k).isSome) = true ∧
        (pyFloat ((prices.lookup "pax-gold").getD PyVal.none)).isSome = true ∧
        (pyFloat ((prices.lookup "silver-token-xagx").getD PyVal.none)).isSome
          = true ∧
        (pyFromisoformat ((prices.lookup "timestamp").getD PyVal.none)).isSome
          = true)) := by
  refine ⟨validate_data_true_iff prices, ?_⟩
  rw [← validate_data_true_iff prices]
  cases h : (validate_data prices).1 <;> simp [h]

/-- Witness for C7: a well-formed snapshot validates; one missing a key and
one with a non-numeric price do not. -/
theorem c7_validate_witness :
    (validate_data [("pax-gold", PyVal.num 2000),
      ("silver-token-xagx", PyVal.num 30),
      ("timestamp", PyVal.str "2025-08-31T12:00:00")]).1 = true ∧
    (validate_data [("pax-gold", PyVal.num 2000)]).1 = false ∧
    (validate_data [("pax-gold", PyVal.str "invalid"),
      ("silver-token-xagx", PyVal.num 30),
      ("timestamp", PyVal.str "2025-08-31T12:00:00")]).1 = false :=
  ⟨(c7_validate _).1.mpr (by decide),
   (c7_validate _).2.mpr (by decide),
   (c7_validate _).2.mpr (by decide)⟩

/-- C8: transform_prices returns `none` exactly when validation fails (and
then produces no records); otherwise it returns exactly two records, gold and
silver, each dated with the snapshot's timestamp and carrying the snapshot's
corresponding raw USD price. -/
theorem c8_transform_shape (threshold : ℚ) (prices : PyDict)
    (pg ps : Option ℚ) :
    ((transform_prices threshold prices pg ps).1 = Option.none ↔
        (validate_data prices).1 = false) ∧
    (∀ g s, (transform_prices threshold prices pg ps).1 = some (g, s) →
        g.metal = "gold" ∧ s.metal = "silver" ∧
        prices.lookup "timestamp" = some g.date ∧ s.date = g.date ∧
        prices.lookup "pax-gold" = some g.price_usd ∧
        prices.lookup "silver-token-xagx" = some s.price_usd) := by
  by_cases hv : (validate_data prices).1 = true
  · rw [transform_prices_valid hv]
    constructor
    · simp [hv]
    · intro g s heq
      simp only [Option.some.injEq, Prod.mk.injEq] at heq
      obtain ⟨hg, hs⟩ := heq
      subst hg; subst hs
      refine ⟨rfl, rfl, ?_, rfl, ?_, ?_⟩
      · exact validate_lookup_some hv (by simp [required_keys])
      · exact validate_lookup_some hv (by simp [required_keys])
      · exact validate_lookup_some hv (by simp [required_keys])
  · have hv' : (validate_data prices).1 = false := by
      simpa using hv
    rw [transform_prices_invalid hv']
    constructor
    · simp [hv']
    · intro g s heq
      cases heq

/-- Witness for C8: the two records produced from a concrete valid
snapshot. -/
theorem c8_transform_shape_witness :
    (⟨PyVal.str "2025-08-31T12:00:00", "gold", PyVal.num 2000, 0⟩
        : TRec).metal = "gold" ∧
    (⟨PyVal.str "2025-08-31T12:00:00", "silver", PyVal.num 30, 0⟩
        : TRec).metal = "silver" ∧
    ([("pax-gold", PyVal.num 2000), ("silver-token-xagx", PyVal.num 30),
      ("timestamp", PyVal.str "2025-08-31T12:00:00")] : PyDict).lookup
        "timestamp" = some (PyVal.str "2025-08-31T12:00:00") ∧
    (PyVal.str "2025-08-31T12:00:00") = (PyVal.str "2025-08-31T12:00:00") ∧
    ([("pax-gold", PyVal.num 2000), ("silver-token-xagx", PyVal.num 30),
      ("timestamp", PyVal.str "2025-08-31T12:00:00")] : PyDict).lookup
        "pax-gold" = some (PyVal.num 2000) ∧
    ([("pax-gold", PyVal.num 2000), ("silver-token-xagx", PyVal.num 30),
      ("timestamp", PyVal.str "2025-08-31T12:00:00")] : PyDict).lookup
        "silver-token-xagx" = some (PyVal.num 30) :=
  (c8_transform_shape 5 [("pax-gold", PyVal.num 2000),
      ("silver-token-xagx", PyVal.num 30),
      ("timestamp", PyVal.str "2025-08-31T12:00:00")] Option.none Option.none).2
    ⟨PyVal.str "2025-08-31T12:00:00", "gold", PyVal.num 2000, 0⟩
    ⟨PyVal.str "2025-08-31T12:00:00", "silver", PyVal.num 30, 0⟩
    (by decide)

/-- C5: the per-asset change goes through calculate_change only when a
previous price is present and nonzero; an absent previous price and a
previous price of exactly 0.0 both yield price_change_pct = 0.0, and the
zero-division warning of calculate_change is never emitted by
transform_prices on any input. -/
theorem c5_prev_policy (threshold : ℚ) (prices : PyDict) (pg ps : Option ℚ) :
    ((pg = Option.none ∨ pg = some 0) →
        ∀ g s, (transform_prices threshold prices pg ps).1 = some (g, s) →
          g.price_change = 0) ∧
    ((ps = Option.none ∨ ps = some 0) →
        ∀ g s, (transform_prices threshold prices pg ps).1 = some (g, s) →
          s.price_change = 0) ∧
    TLog.zeroPrev ∉ (transform_prices threshold prices pg ps).2 := by
  refine ⟨?_, ?_, ?_⟩
  · intro hfalsy g s heq
    by_cases hv : (validate_data prices).1 = true
    · rw [transform_prices_valid hv] at heq
      simp only [Option.some.injEq, Prod.mk.injEq] at heq
      rw [← heq.1]
      simp [asset_change_falsy _ hfalsy]
    · rw [transform_prices_invalid (by simpa using hv)] at heq
      cases heq
  · intro hfalsy g s heq
    by_cases hv : (validate_data prices).1 = true
    · rw [transform_prices_valid hv] at heq
      simp only [Option.some.injEq, Prod.mk.injEq] at heq
      rw [← heq.2]
      simp [asset_change_falsy _ hfalsy]
    · rw [transform_prices_invalid (by simpa using hv)] at heq
      cases heq
  · by_cases hv : (validate_data prices).1 = true
    · rw [transform_prices_valid hv]
      intro hmem
      simp only [List.mem_append, List.mem_singleton] at hmem
      rcases hmem with ((((h | h) | h) | h) | h)
      · exact zeroPrev_not_in_asset_change _ _ h
      · exact zeroPrev_not_in_flag _ _ _ _ h
      · exact zeroPrev_not_in_asset_change _ _ h
      · exact zeroPrev_not_in_flag _ _ _ _ h
      · cases h
    · rw [transform_prices_invalid (by simpa using hv)]
      exact zeroPrev_not_in_validate prices

/-- Witness for C5: with no previous gold price and a previous silver price
of 0.0 the transformed records carry zero change. -/
theorem c5_prev_policy_witness :
    (transform_prices 5 [("pax-gold", PyVal.num 2000),
        ("silver-token-xagx", PyVal.num 30),
        ("timestamp", PyVal.str "2025-08-31T12:00:00")]
        Option.none (some 0)).1 =
      some (⟨PyVal.str "2025-08-31T12:00:00", "gold", PyVal.num 2000, 0⟩,
            ⟨PyVal.str "2025-08-31T12:00:00", "silver", PyVal.num 30, 0⟩) ∧
    (⟨PyVal.str "2025-08-31T12:00:00", "gold", PyVal.num 2000, 0⟩
        : TRec).price_change = 0 :=
  ⟨by decide,
   (c5_prev_policy 5 [("pax-gold", PyVal.num 2000),
       ("silver-token-xagx", PyVal.num 30),
       ("timestamp", PyVal.str "2025-08-31T12:00:00")]
       Option.none (some 0)).1 (Or.inl rfl)
     ⟨PyVal.str "2025-08-31T12:00:00", "gold", PyVal.num 2000, 0⟩
     ⟨PyVal.str "2025-08-31T12:00:00", "silver", PyVal.num 30, 0⟩
     (by decide)⟩

end ETL
